import Mathlib

/-!
Verification of the hybrid research-collaboration recommender
(`recommender.py`).  The Python source is shallowly embedded: pandas
rows become Lean structures, numpy arrays become Lean lists or update
functions, and the float arithmetic of the scoring pipeline is carried
out exactly over `ℚ` (the decimal constants 0.6, 0.4 and 1e-6 are taken
at their decimal values; IEEE rounding is abstracted away, and none of
the verified properties is sensitive to it).

String processing: Lean's own `String.splitOn`/`String.trim` do not
reduce inside the kernel, so `str.split(',')`, `str.strip()` and
substring containment are embedded as structurally recursive functions
over `List Char` applied to `String.data`.  They mirror the Python
semantics: `split(',')` of an empty string yields one empty field,
`strip` removes whitespace at both ends, `in`/`str.contains` is plain
substring containment.
-/

/-- Python `s.split(',')` on the character list of a string: cut at every
comma, keeping empty fields (accumulator holds the current field
reversed). -/
def splitCommaAux (cur : List Char) : List Char → List (List Char)
  | [] => [cur.reverse]
  | c :: cs =>
    if c = ',' then cur.reverse :: splitCommaAux [] cs
    else splitCommaAux (c :: cur) cs

/-- Python `s.split(',')`. -/
def splitComma (s : String) : List (List Char) := splitCommaAux [] s.data

/-- Python `s.strip()`: drop whitespace from both ends. -/
def stripChars (l : List Char) : List Char :=
  ((l.dropWhile Char.isWhitespace).reverse.dropWhile Char.isWhitespace).reverse

/-- Boolean test that `p` is a prefix of the second list. -/
def isPrefixChars : List Char → List Char → Bool
  | [], _ => true
  | _ :: _, [] => false
  | a :: as, b :: bs => a = b && isPrefixChars as bs

/-- Substring containment (Python `needle in hay`, pandas
`Series.str.contains` with a plain-text pattern): `needle` occurs
contiguously somewhere in `hay`. -/
def containsSub (hay needle : List Char) : Bool :=
  match hay with
  | [] => isPrefixChars needle []
  | _ :: t => isPrefixChars needle hay || containsSub t needle

/-!
Researcher id mapping (`recommender.py` line 27):
`self.researcher_ids = {name: idx for idx, name in enumerate(self.researchers['name'])}`.
A Python dict comprehension keeps the LAST index for a duplicated name,
hence `getLast?` below.  `name in researcher_ids` is `Option.isSome`.
-/

/-- The dict `researcher_ids`, as a partial map from a (stripped) author
name to the row index of the researcher bearing that name. -/
def researcher_ids (names : List String) (s : List Char) : Option ℕ :=
  ((List.range names.length).filter (fun i => (names.getD i "").data == s)).getLast?

/-!
Co-authorship matrix builder (`recommender.py` lines 29-44,
`build_coauthor_matrix`).  The numpy array `np.zeros((n,n))` with
in-place `+= 1` updates is embedded as a total function `ℕ → ℕ → ℕ`
updated pointwise; entries outside the `n × n` block are never touched
by the build (all resolved indices are `< n`) and stay 0.  The numpy
array holds floats, but every entry is an exact small integer (a count
of increments), so the entries are carried as `ℕ` and cast to `ℚ` where
the scoring pipeline consumes them.
-/

/-- Line 35: `[a.strip() for a in pub['authors'].split(',') if a.strip() in self.researcher_ids]`,
followed by the lookups `self.researcher_ids[authors[i]]` of lines
38-39: the per-publication list of resolved author row indices, in
order, duplicates retained. -/
def resolvedIdxs (names : List String) (authors : String) : List ℕ :=
  (((splitComma authors).map stripChars).filter
      (fun a => (researcher_ids names a).isSome)).map
    (fun a => (researcher_ids names a).getD 0)

/-- One `matrix[i, j] += 1` update of the numpy array. -/
def matInc (m : ℕ → ℕ → ℕ) (i j : ℕ) : ℕ → ℕ → ℕ :=
  fun a b => if a = i ∧ b = j then m i j + 1 else m a b

/-- Lines 40-41: `matrix[idx1, idx2] += 1; matrix[idx2, idx1] += 1`. -/
def incPair (m : ℕ → ℕ → ℕ) (i j : ℕ) : ℕ → ℕ → ℕ :=
  matInc (matInc m i j) j i

/-- Lines 36-41: the double loop `for i in range(len(authors)): for j in
range(i+1, len(authors))` pairing each author occurrence with every
later occurrence, rendered as recursion on the index list (head against
each element of the tail, then the tail). -/
def addPairs : (ℕ → ℕ → ℕ) → List ℕ → (ℕ → ℕ → ℕ)
  | m, [] => m
  | m, i :: rest => addPairs (rest.foldl (fun acc j => incPair acc i j) m) rest

/-- Function `build_coauthor_matrix` (lines 29-44): fold the pair updates of every
publication over the zero matrix.  `pubsAuthors` is the `authors` column
of the publications table.  (The final `csr_matrix` conversion only
changes the storage format, not any entry.) -/
def build_coauthor_matrix (names : List String) (pubsAuthors : List String) :
    ℕ → ℕ → ℕ :=
  pubsAuthors.foldl (fun m a => addPairs m (resolvedIdxs names a)) (fun _ _ => 0)

/-- Analysis helper (not part of the source): the total increment that
`addPairs` applied to index list `idxs` contributes to entry `(a, b)`. -/
def pairCount : List ℕ → ℕ → ℕ → ℕ
  | [], _, _ => 0
  | i :: rest, a, b =>
    (if a = i then rest.count b else 0) +
      (if b = i then rest.count a else 0) + pairCount rest a b

/-!
Content profile builder (`recommender.py` lines 46-56,
`build_content_profiles`).  Only the `name` and `research_interests`
columns of the researchers table and the `authors` and `keywords`
columns of the publications table are read by the core; the remaining
columns are carried through unchanged and omitted here.
-/

/-- Decidable equality of `Except` values, so that concrete runs of the
fallible builders can be evaluated by `decide`. -/
instance {ε α : Type} [DecidableEq ε] [DecidableEq α] :
    DecidableEq (Except ε α) := fun x y =>
  match x, y with
  | Except.error a, Except.error b => decidable_of_iff (a = b) (by simp)
  | Except.error _, Except.ok _ => isFalse (by simp)
  | Except.ok _, Except.error _ => isFalse (by simp)
  | Except.ok a, Except.ok b => decidable_of_iff (a = b) (by simp)

/-- A researchers-table row, restricted to the columns the core reads. -/
structure Researcher where
  name : String
  research_interests : String
deriving DecidableEq

/-- A publications-table row, restricted to the columns the core reads. -/
structure Publication where
  authors : String
  keywords : String
deriving DecidableEq

/-- Python `' '.join(strings)`. -/
def joinSpace : List String → String
  | [] => ""
  | [s] => s
  | s :: rest => s ++ " " ++ joinSpace rest

/-- Lines 48-53: one profile text per researcher.  Line 51 selects the
publications whose raw `authors` field contains the researcher's name as
a SUBSTRING (`self.publications['authors'].str.contains(researcher['name'])`;
the pattern is treated as plain text here — the generated names contain
no regex metacharacters); line 52 appends the space-joined `keywords`
of the selected publications to the researcher's interests. -/
def profile_texts (researchers : List Researcher) (pubs : List Publication) :
    List String :=
  researchers.map (fun r =>
    let ps := pubs.filter (fun p => containsSub p.authors.data r.name.data)
    r.research_interests ++ " " ++ joinSpace (ps.map (fun p => p.keywords)))

/-!
The TF-IDF vectorization of line 55-56 is performed by sklearn's
`TfidfVectorizer`, an external library call.  It is modelled from its
documented semantics: lowercase the text, tokenize with the default
token pattern `\b\w\w+\b` (maximal runs of word characters, keeping
those of length at least 2), collect the vocabulary over the whole
corpus, and raise `ValueError("empty vocabulary; perhaps the documents
only contain stop words")` when no token occurs in any document.  The
matrix is modelled with raw term counts as entries; the real
transformer multiplies each column by a positive idf factor and
l2-normalizes each nonzero row, which maps zero entries (and zero rows)
to themselves, so the zero/nonzero structure — the only thing the
claims about this builder depend on — is exactly that of the counts.
The vocabulary is kept in first-occurrence order rather than sklearn's
alphabetical order, which only permutes columns.
-/

/-- Word characters of the default sklearn token pattern (`\w`). -/
def isWordChar (c : Char) : Bool := c.isAlphanum || c = '_'

/-- Maximal runs of word characters in a character list. -/
def wordRunsAux (cur : List Char) : List Char → List (List Char)
  | [] => if cur.isEmpty then [] else [cur.reverse]
  | c :: cs =>
    if isWordChar c then wordRunsAux (c :: cur) cs
    else if cur.isEmpty then wordRunsAux [] cs
    else cur.reverse :: wordRunsAux [] cs

/-- Default sklearn tokenization: lowercase, then keep the maximal
word-character runs of length at least 2. -/
def tokenize (s : String) : List (List Char) :=
  (wordRunsAux [] (s.data.map Char.toLower)).filter (fun t => 2 ≤ t.length)

/-- First-occurrence deduplication (accumulator reversed). -/
def dedupAux (acc : List (List Char)) : List (List Char) → List (List Char)
  | [] => acc.reverse
  | t :: rest =>
    if acc.contains t then dedupAux acc rest else dedupAux (t :: acc) rest

/-- The fitted vocabulary: every distinct token of the corpus. -/
def vocabulary (docs : List String) : List (List Char) :=
  dedupAux [] ((docs.map tokenize).flatten)

/-- Modelled from sklearn `TfidfVectorizer().fit_transform(docs)` as
described above: the error on an empty vocabulary, or one row of term
counts per document. -/
def fit_transform (docs : List String) : Except String (List (List ℕ)) :=
  let vocab := vocabulary docs
  if vocab.isEmpty then
    Except.error "empty vocabulary; perhaps the documents only contain stop words"
  else
    Except.ok (docs.map (fun d => vocab.map (fun t => (tokenize d).count t)))

/-- Function `build_content_profiles` (lines 46-56): vectorize the profile
texts. -/
def build_content_profiles (researchers : List Researcher)
    (pubs : List Publication) : Except String (List (List ℕ)) :=
  fit_transform (profile_texts researchers pubs)

/-- Specification-side definition, for comparison with the code's
substring matching (claim about lines 46-56): the spec demands that a
researcher receive a publication's keywords exactly when the
researcher's WHOLE name is one of the comma-separated entries of the
publication's author field. -/
def specWholeNameMatch (authors researcher_name : String) : Bool :=
  ((splitComma authors).map stripChars).contains researcher_name.data

/-!
The hybrid scorer/ranker (`recommender.py` lines 58-90,
`recommend_collaborators`).

The model on which recommendations are served holds the researcher
name column, the cosine-similarity matrix of the TF-IDF vectors
(lines 66-69: `cosine_similarity(tfidf_matrix[idx], tfidf_matrix)`),
and the co-authorship matrix.  Cosine similarities of TF-IDF vectors
are irrational reals in general, so the cosine matrix enters the model
as data (exact rational values are used at concrete instances: the
cosine of two identical profile texts is 1, of two profiles sharing no
term 0, and every self-similarity of a nonzero vector is 1).

Lines 74-78 normalize the two score vectors and blend them with
weights 0.6/0.4; line 81 takes `np.argsort(combined_scores)[-top_n-1:-1][::-1]`,
and lines 83-88 drop the query researcher's own index from that window
and collect the recommendations (returned here as index/score pairs;
the source copies the whole researcher row and attaches the score).

`np.argsort` is modelled as a stable ascending argsort (insertion sort
on the index list).  numpy's default quicksort specifies no tie order;
every property proved about the ranking either avoids ties or is
insensitive to them.
-/

/-- Minimum of a score vector (`. min()`; numpy rejects an empty vector,
the embedding returns 0 there). -/
def listMin : List ℚ → ℚ
  | [] => 0
  | x :: xs => xs.foldl min x

/-- Maximum of a score vector (`. max()`). -/
def listMax : List ℚ → ℚ
  | [] => 0
  | x :: xs => xs.foldl max x

/-- Lines 75-76: min-max normalization
`(x - min) / (max - min + 1e-6)`. -/
def minMaxNormalize (v : List ℚ) : List ℚ :=
  v.map (fun x => (x - listMin v) / (listMax v - listMin v + 1 / 1000000))

/-- Stable ascending argsort of a score vector: the indices
`0, ..., length - 1` sorted by their scores. -/
def argsortAsc (v : List ℚ) : List ℕ :=
  List.insertionSort (fun i j => v.getD i 0 ≤ v.getD j 0) (List.range v.length)

/-- Lines 81-88 on the combined score vector: the Python slice
`[-top_n-1:-1]` keeps the ascending positions `max(0, n-top_n-1), ..., n-2`
— the last `top_n` entries of the ascending order with the single
highest entry dropped — and `[::-1]` reverses them into descending
order; line 85 then filters the query researcher's own index out. -/
def rankCandidates (v : List ℚ) (q topN : ℕ) : List ℕ :=
  ((((argsortAsc v).take (v.length - 1)).reverse).take topN).filter
    (fun i => i ≠ q)

/-- The built model served by `recommend_collaborators`: the researcher
name column, the cosine-similarity matrix of the TF-IDF profile
vectors, and the co-authorship matrix. -/
structure Model where
  names : List String
  contentSim : List (List ℚ)
  coauthor : ℕ → ℕ → ℕ

/-- Line 72: the query researcher's row of the co-authorship matrix as a
dense vector (`self.coauthor_matrix[researcher_idx].toarray().flatten()`),
cast from counts to the rationals the scoring works in. -/
def collabRow (m : Model) (idx : ℕ) : List ℚ :=
  (List.range m.names.length).map (fun j => (m.coauthor idx j : ℚ))

/-- Lines 74-78: `combined_scores = 0.6 * content_sim + 0.4 * collab_sim`
after min-max normalizing both vectors, where `content_sim` is the query
researcher's cosine row (lines 66-69). -/
def combinedScores (m : Model) (idx : ℕ) : List ℚ :=
  List.zipWith (fun c k => (6 / 10) * c + (4 / 10) * k)
    (minMaxNormalize (m.contentSim.getD idx []))
    (minMaxNormalize (collabRow m idx))

/-- Function `recommend_collaborators` (lines 58-90): the "not found" check of
lines 60-61, then the ranking of lines 81-88 on the combined scores of
lines 66-78.  Recommendations are returned as (row index, combined
score) pairs. -/
def recommend_collaborators (m : Model) (researcher_name : String)
    (topN : ℕ) : Except String (List (ℕ × ℚ)) :=
  match researcher_ids m.names researcher_name.data with
  | none =>
    Except.error ("Researcher " ++ researcher_name ++ " not found in database")
  | some idx =>
    Except.ok ((rankCandidates (combinedScores m idx) idx topN).map
      (fun i => (i, (combinedScores m idx).getD i 0)))

/-!
Concrete built models used by counterexamples and witnesses.  The
cosine matrices consist of the values 0 and 1 only, which are exactly
realizable: the cosine of a nonzero TF-IDF vector with itself, or with
the vector of an identical profile text, is 1, and the cosine of two
profiles sharing no term is 0.
-/

/-- A built model with three researchers: "Q" and "A" have identical
profiles ("B" disjoint), and "A" co-authored both publications with
"Q".  Candidate "A" therefore outscores the query "Q" itself. -/
def modelDropsTop : Model :=
  ⟨["Q", "A", "B"], [[1, 1, 0], [1, 1, 0], [0, 0, 1]],
    build_coauthor_matrix ["Q", "A", "B"] ["Q, A", "Q, A"]⟩

/-- A built model with two researchers with disjoint profiles and no
publications. -/
def modelTwo : Model :=
  ⟨["Q", "A"], [[1, 0], [0, 1]], build_coauthor_matrix ["Q", "A"] []⟩

/-- A built model with four researchers: "Q", "A" and "B" have identical
profiles ("C" disjoint), "A" co-authored two publications with "Q" and
"B" one.  Both "A" and "B" outscore the query "Q" itself, so "Q"'s own
index falls inside the top-2 selection window. -/
def modelShortList : Model :=
  ⟨["Q", "A", "B", "C"],
    [[1, 1, 1, 0], [1, 1, 1, 0], [1, 1, 1, 0], [0, 0, 0, 1]],
    build_coauthor_matrix ["Q", "A", "B", "C"] ["Q, A", "Q, A", "Q, B"]⟩

/-!
Theory of the co-authorship matrix builder.  `pairCount` is shown to be
the exact total increment each publication contributes to an entry, and
it collapses to a product of occurrence counts.
-/

/-- The two increments of one unordered author pair, as seen from an
arbitrary entry `(a, b)`. -/
theorem incPair_apply (m : ℕ → ℕ → ℕ) (i j a b : ℕ) :
    incPair m i j a b =
      m a b + (if a = i ∧ b = j then 1 else 0) +
        (if a = j ∧ b = i then 1 else 0) := by
  simp only [incPair, matInc]
  by_cases h2 : a = j ∧ b = i
  · obtain ⟨rfl, rfl⟩ := h2
    by_cases h3 : a = b
    · subst h3; simp
    · simp [h3, Ne.symm h3]
  · rw [if_neg h2, if_neg h2]
    by_cases h1 : a = i ∧ b = j
    · obtain ⟨rfl, rfl⟩ := h1; simp
    · rw [if_neg h1, if_neg h1]; simp

/-- The inner `for j in range(i+1, ...)` loop, as seen from an arbitrary
entry `(a, b)`. -/
theorem foldl_incPair_apply (i : ℕ) (rest : List ℕ) (m : ℕ → ℕ → ℕ)
    (a b : ℕ) :
    (rest.foldl (fun acc j => incPair acc i j) m) a b =
      m a b + (if a = i then rest.count b else 0) +
        (if b = i then rest.count a else 0) := by
  induction rest generalizing m with
  | nil => simp
  | cons j t ih =>
    rw [List.foldl_cons, ih, incPair_apply, List.count_cons, List.count_cons]
    simp only [beq_iff_eq]
    split_ifs <;> omega

/-- The whole double loop of one publication adds exactly `pairCount` to
each entry. -/
theorem addPairs_apply (idxs : List ℕ) (m : ℕ → ℕ → ℕ) (a b : ℕ) :
    addPairs m idxs a b = m a b + pairCount idxs a b := by
  induction idxs generalizing m with
  | nil => simp [addPairs, pairCount]
  | cons i rest ih =>
    rw [addPairs, ih, foldl_incPair_apply, pairCount]
    ring

/-- Closed form of the built matrix: each entry is the sum over the
publications of that publication's `pairCount`. -/
theorem build_coauthor_apply (names : List String) (pubs : List String)
    (a b : ℕ) :
    build_coauthor_matrix names pubs a b =
      (pubs.map (fun p => pairCount (resolvedIdxs names p) a b)).sum := by
  suffices h : ∀ (l : List String) (m : ℕ → ℕ → ℕ),
      (l.foldl (fun acc p => addPairs acc (resolvedIdxs names p)) m) a b =
        m a b + (l.map (fun p => pairCount (resolvedIdxs names p) a b)).sum by
    simpa [build_coauthor_matrix] using h pubs (fun _ _ => 0)
  intro l
  induction l with
  | nil => simp
  | cons p t ih =>
    intro m
    rw [List.foldl_cons, ih, addPairs_apply]
    simp
    ring

/-- Swapping the entry swaps nothing in `pairCount`. -/
theorem pairCount_symm (idxs : List ℕ) (a b : ℕ) :
    pairCount idxs a b = pairCount idxs b a := by
  induction idxs with
  | nil => rfl
  | cons i t ih => rw [pairCount, pairCount, ih]; ring

/-- For distinct researchers the per-publication increment is the product
of the occurrence counts of the two names within the publication's
resolved author list. -/
theorem pairCount_eq_count_mul (idxs : List ℕ) (a b : ℕ) (hab : a ≠ b) :
    pairCount idxs a b = idxs.count a * idxs.count b := by
  induction idxs with
  | nil => simp [pairCount]
  | cons i t ih =>
    rw [pairCount, ih, List.count_cons, List.count_cons]
    simp only [beq_iff_eq]
    split_ifs <;> first | omega | (subst_vars; ring)

/-- Per-publication increment of a diagonal entry vanishes when the
publication's resolved author list has no repeated name. -/
theorem pairCount_self_nodup (idxs : List ℕ) (a : ℕ) (h : idxs.Nodup) :
    pairCount idxs a a = 0 := by
  induction idxs with
  | nil => rfl
  | cons i t ih =>
    obtain ⟨hni, hnd⟩ := List.nodup_cons.mp h
    rw [pairCount]
    rcases eq_or_ne a i with rfl | hne
    · have hz : t.count a = 0 := List.count_eq_zero.mpr hni
      simp [hz, ih hnd]
    · simp [hne, ih hnd]

/-- C6: for every researchers/publications input and every pair of
indices `(a, b)`, the built co-authorship matrix satisfies
`weight(a, b) = weight(b, a)`. -/
theorem coauthor_symm (names : List String) (pubs : List String) (a b : ℕ) :
    build_coauthor_matrix names pubs a b = build_coauthor_matrix names pubs b a := by
  rw [build_coauthor_apply, build_coauthor_apply]
  exact congrArg List.sum
    (List.map_congr_left (fun p _ => pairCount_symm (resolvedIdxs names p) a b))

/-- C4 counterexample: when a resolved name appears twice in one
publication's author list, the diagonal IS incremented — here
`weight(0, 0) = 2` for the single publication "Alice, Alice", refuting
the claim that `weight(a, a)` is never incremented in that case. -/
theorem coauthor_diag_cex :
    build_coauthor_matrix ["Alice", "Bob"] ["Alice, Alice"] 0 0 = 2 ∧
      build_coauthor_matrix ["Alice", "Bob"] ["Alice, Alice"] 0 0 ≠ 0 := by
  decide

/-- C4 (amended): the diagonal of the co-authorship matrix is 0 provided
no publication's resolved author list repeats a name (in particular for
any publication table whose author lists are duplicate-free, which is
what the bundled data generator produces). -/
theorem coauthor_diag_zero (names : List String) (pubs : List String) (a : ℕ)
    (h : ∀ p ∈ pubs, (resolvedIdxs names p).Nodup) :
    build_coauthor_matrix names pubs a a = 0 := by
  rw [build_coauthor_apply]
  apply List.sum_eq_zero
  intro x hx
  obtain ⟨p, hp, rfl⟩ := List.mem_map.mp hx
  exact pairCount_self_nodup _ _ (h p hp)

/-- Witness for the amended C4 at a concrete duplicate-free input. -/
theorem coauthor_diag_zero_w :
    build_coauthor_matrix ["Alice", "Bob"] ["Alice, Bob"] 0 0 = 0 :=
  coauthor_diag_zero ["Alice", "Bob"] ["Alice, Bob"] 0 (by decide)

/-- C5 counterexample: in the publication "Alice, Alice, Bob" the pair
(Alice, Bob) is counted once per occurrence pair, so the single
publication increments `weight(0, 1)` by 2, not by 1: the per-publication
author list is NOT deduplicated. -/
theorem coauthor_pair_cex :
    build_coauthor_matrix ["Alice", "Bob"] ["Alice, Alice, Bob"] 0 1 = 2 ∧
      build_coauthor_matrix ["Alice", "Bob"] ["Alice, Alice, Bob"] 0 1 ≠ 1 := by
  decide

/-- C5 (amended): for distinct researchers `a ≠ b` each publication
increments `weight(a, b)` by the PRODUCT of the occurrence counts of the
two names in its resolved author list — hence by exactly 1 when both
names occur exactly once. -/
theorem coauthor_pair_count (names : List String) (pubs : List String)
    (a b : ℕ) (hab : a ≠ b) :
    build_coauthor_matrix names pubs a b =
      (pubs.map (fun p =>
        (resolvedIdxs names p).count a * (resolvedIdxs names p).count b)).sum := by
  rw [build_coauthor_apply]
  exact congrArg List.sum (List.map_congr_left
    (fun p _ => pairCount_eq_count_mul (resolvedIdxs names p) a b hab))

/-- Witness for the amended C5 at a concrete input: two publications
each authored once by Alice and once by Bob give weight 2. -/
theorem coauthor_pair_count_w :
    build_coauthor_matrix ["Alice", "Bob"] ["Alice, Bob", "Bob, Alice"] 0 1 = 2 := by
  rw [coauthor_pair_count ["Alice", "Bob"] ["Alice, Bob", "Bob, Alice"] 0 1
    (by decide)]
  decide

/-!
Theory of the min-max normalization (lines 75-76).
-/

/-- A min-fold is below its initial value. -/
theorem foldl_min_le_init (l : List ℚ) (a : ℚ) : l.foldl min a ≤ a := by
  induction l generalizing a with
  | nil => exact le_refl a
  | cons x t ih => exact le_trans (ih (min a x)) (min_le_left a x)

/-- A min-fold is below every list element. -/
theorem foldl_min_le_mem (l : List ℚ) (a x : ℚ) (hx : x ∈ l) :
    l.foldl min a ≤ x := by
  induction l generalizing a with
  | nil => cases hx
  | cons y t ih =>
    rcases List.mem_cons.mp hx with rfl | hmem
    · exact le_trans (foldl_min_le_init t (min a x)) (min_le_right a x)
    · exact ih (min a y) hmem

/-- A max-fold is above its initial value. -/
theorem le_foldl_max_init (l : List ℚ) (a : ℚ) : a ≤ l.foldl max a := by
  induction l generalizing a with
  | nil => exact le_refl a
  | cons x t ih => exact le_trans (le_max_left a x) (ih (max a x))

/-- A max-fold is above every list element. -/
theorem le_foldl_max_mem (l : List ℚ) (a x : ℚ) (hx : x ∈ l) :
    x ≤ l.foldl max a := by
  induction l generalizing a with
  | nil => cases hx
  | cons y t ih =>
    rcases List.mem_cons.mp hx with rfl | hmem
    · exact le_trans (le_max_right a x) (le_foldl_max_init t (max a x))
    · exact ih (max a y) hmem

/-- The minimum bounds every element from below. -/
theorem listMin_le_mem (v : List ℚ) (x : ℚ) (hx : x ∈ v) : listMin v ≤ x := by
  cases v with
  | nil => cases hx
  | cons h t =>
    rcases List.mem_cons.mp hx with rfl | hmem
    · exact foldl_min_le_init t x
    · exact foldl_min_le_mem t h x hmem

/-- The maximum bounds every element from above. -/
theorem le_listMax_mem (v : List ℚ) (x : ℚ) (hx : x ∈ v) : x ≤ listMax v := by
  cases v with
  | nil => cases hx
  | cons h t =>
    rcases List.mem_cons.mp hx with rfl | hmem
    · exact le_foldl_max_init t x
    · exact le_foldl_max_mem t h x hmem

/-- A min-fold over elements all equal to the initial value is that
value. -/
theorem foldl_min_const (l : List ℚ) (a : ℚ) (h : ∀ x ∈ l, x = a) :
    l.foldl min a = a := by
  induction l with
  | nil => rfl
  | cons x t ih =>
    have hx : x = a := h x (List.mem_cons_self x t)
    subst hx
    rw [List.foldl_cons, min_self]
    exact ih (fun y hy => h y (List.mem_cons_of_mem x hy))

/-- C7: every min-max normalized score lies in `[0, 1]`, and when all the
raw scores are equal every normalized score is 0 (the `+ 1e-6` in the
denominator makes the numerator-zero case well defined). -/
theorem minMax_normalize_bounds (v : List ℚ) (hv : v ≠ []) :
    (∀ x ∈ minMaxNormalize v, 0 ≤ x ∧ x ≤ 1) ∧
      ((∀ x ∈ v, ∀ y ∈ v, x = y) → ∀ z ∈ minMaxNormalize v, z = 0) := by
  obtain ⟨h, t, rfl⟩ : ∃ h t, v = h :: t := by
    cases v with
    | nil => exact absurd rfl hv
    | cons h t => exact ⟨h, t, rfl⟩
  have hmem : h ∈ h :: t := List.mem_cons_self h t
  have hminmax : listMin (h :: t) ≤ listMax (h :: t) :=
    le_trans (listMin_le_mem _ h hmem) (le_listMax_mem _ h hmem)
  have hd : (0 : ℚ) < listMax (h :: t) - listMin (h :: t) + 1 / 1000000 := by
    have : (0 : ℚ) < 1 / 1000000 := by norm_num
    linarith
  constructor
  · intro x hx
    obtain ⟨y, hy, rfl⟩ := List.mem_map.mp hx
    constructor
    · exact div_nonneg (sub_nonneg.mpr (listMin_le_mem _ y hy)) hd.le
    · rw [div_le_one hd]
      have hy' := le_listMax_mem _ y hy
      linarith
  · intro hall z hz
    obtain ⟨y, hy, rfl⟩ := List.mem_map.mp hz
    have hyh : y = h := hall y hy h hmem
    have hminh : listMin (h :: t) = h :=
      foldl_min_const t h (fun x hx => hall x (List.mem_cons_of_mem h hx) h hmem)
    rw [hyh, hminh, sub_self, zero_div]

/-- Witness for C7 at the concrete score vector `[2, 5]`. -/
theorem minMax_normalize_bounds_w :
    0 ≤ ((3000000 : ℚ) / 3000001) ∧ ((3000000 : ℚ) / 3000001) ≤ 1 := by
  have h := (minMax_normalize_bounds [2, 5] (by simp)).1
  apply h
  have hv : minMaxNormalize [2, 5] = [0, 3000000 / 3000001] := by
    norm_num [minMaxNormalize, listMin, listMax]
  rw [hv]
  simp

/-!
Error path of the ranker (lines 60-61) and the exclusion of the query
researcher (line 85).
-/

/-- A list is a prefix of itself followed by anything. -/
theorem isPrefixChars_append (n r : List Char) :
    isPrefixChars n (n ++ r) = true := by
  induction n with
  | nil => rfl
  | cons a as ih => simp [isPrefixChars, ih]

/-- A prefix of the haystack is contained in it. -/
theorem containsSub_of_pref (hay n : List Char)
    (h : isPrefixChars n hay = true) : containsSub hay n = true := by
  cases hay with
  | nil => exact h
  | cons c t => simp [containsSub, h]

/-- Containment is preserved by prepending. -/
theorem containsSub_append_left (pre hay n : List Char)
    (h : containsSub hay n = true) : containsSub (pre ++ hay) n = true := by
  induction pre with
  | nil => exact h
  | cons c p ih => simp [containsSub, ih]

/-- C9: querying a name absent from the researcher id mapping yields the
`ValueError` of line 61 — whose message contains the searched name — and
never a result list. -/
theorem recommend_not_found (m : Model) (name : String) (topN : ℕ)
    (h : researcher_ids m.names name.data = none) :
    recommend_collaborators m name topN =
        Except.error ("Researcher " ++ name ++ " not found in database") ∧
      containsSub ("Researcher " ++ name ++ " not found in database").data
        name.data = true := by
  constructor
  · simp only [recommend_collaborators, h]
  · have hdata : ("Researcher " ++ name ++ " not found in database").data =
        "Researcher ".data ++ (name.data ++ " not found in database".data) := by
      simp [String.data_append]
    rw [hdata]
    exact containsSub_append_left _ _ _
      (containsSub_of_pref _ _ (isPrefixChars_append _ _))

/-- Witness for C9: the name "Bob" is not in the model with the single
researcher "Alice". -/
theorem recommend_not_found_w :
    recommend_collaborators ⟨["Alice"], [[1]], fun _ _ => 0⟩ "Bob" 5 =
        Except.error ("Researcher " ++ "Bob" ++ " not found in database") ∧
      containsSub ("Researcher " ++ "Bob" ++ " not found in database").data
        "Bob".data = true :=
  recommend_not_found ⟨["Alice"], [[1]], fun _ _ => 0⟩ "Bob" 5 (by decide)

/-- Every index the ranking returns differs from the query index (the
filter of line 85). -/
theorem rankCandidates_ne (v : List ℚ) (q topN i : ℕ)
    (h : i ∈ rankCandidates v q topN) : i ≠ q := by
  have h2 := (List.mem_filter.mp h).2
  simpa using h2

/-- C2: a recommendation list never contains the query researcher: every
returned pair's index differs from the resolved query index. -/
theorem recommend_excludes_query (m : Model) (name : String) (topN : ℕ)
    (l : List (ℕ × ℚ)) (q : ℕ)
    (hok : recommend_collaborators m name topN = Except.ok l)
    (hq : researcher_ids m.names name.data = some q)
    (p : ℕ × ℚ) (hp : p ∈ l) : p.1 ≠ q := by
  simp only [recommend_collaborators, hq, Except.ok.injEq] at hok
  subst hok
  obtain ⟨i, hi, rfl⟩ := List.mem_map.mp hp
  exact rankCandidates_ne _ _ _ _ hi

/-!
Substring matching of the profile builder (claim C3) and the empty
corpus failure (claim C8), both at concrete inputs.
-/

/-- C3 failing input: the researcher "Ann" — not an author of the
publication, whose sole author is "Annabel" — nevertheless receives the
publication's keywords in their profile, because line 51 matches names
by substring containment; whole-name matching (the spec-side
`specWholeNameMatch`) rejects this match. -/
theorem profile_substring_match :
    (profile_texts [⟨"Ann", "genetics"⟩, ⟨"Annabel", "ecology"⟩]
        [⟨"Annabel", "neuroscience"⟩]).getD 0 "" = "genetics neuroscience" ∧
      specWholeNameMatch "Annabel" "Ann" = false := by
  decide

/-- C8 failing input: when every researcher's profile text is empty (no
interests, no publications), the whole corpus contains no token and the
vectorizer raises the "empty vocabulary" error instead of succeeding
with zero vectors. -/
theorem build_profiles_empty_corpus_error :
    build_content_profiles [⟨"Alice", ""⟩, ⟨"Bob", ""⟩] [] =
      Except.error
        "empty vocabulary; perhaps the documents only contain stop words" := by
  decide

/-!
Ranking claims at concrete built models.
-/

/-- C1 counterexample: in `modelDropsTop` the candidate "A" (index 1)
has the strictly highest combined score — higher than the query "Q"
itself — so the slice of line 81, which always drops the top-ranked
position, drops "A" rather than "Q"; with `top_n = 1` the result is
empty although two candidates other than "Q" exist, instead of being
the single highest-scoring candidate "A". -/
theorem recommend_drops_top_cex :
    recommend_collaborators modelDropsTop "Q" 1 = Except.ok [] ∧
      modelDropsTop.names.length = 3 := by
  refine ⟨?_, by decide⟩
  have h1 : researcher_ids modelDropsTop.names "Q".data = some 0 := by decide
  have hrow : collabRow modelDropsTop 0 = [0, 2, 0] := by
    have c0 : modelDropsTop.coauthor 0 0 = 0 := by decide
    have c1 : modelDropsTop.coauthor 0 1 = 2 := by decide
    have c2 : modelDropsTop.coauthor 0 2 = 0 := by decide
    have hn : modelDropsTop.names.length = 3 := by decide
    rw [collabRow, hn]
    norm_num [List.range_succ, c0, c1, c2]
  have hcont : modelDropsTop.contentSim.getD 0 [] = [1, 1, 0] := by decide
  have hcs : combinedScores modelDropsTop 0 =
      [600000 / 1000001, 600000 / 1000001 + 800000 / 2000001, 0] := by
    rw [combinedScores, hrow, hcont]
    norm_num [minMaxNormalize, listMin, listMax]
  have hrank : rankCandidates (combinedScores modelDropsTop 0) 0 1 = [] := by
    rw [hcs]
    norm_num [rankCandidates, argsortAsc, List.insertionSort,
      List.orderedInsert, List.range_succ]
  rw [recommend_collaborators, h1]
  show Except.ok ((rankCandidates (combinedScores modelDropsTop 0) 0 1).map
    (fun i => (i, (combinedScores modelDropsTop 0).getD i 0))) = Except.ok []
  rw [hrank]
  rfl

/-- The ranking window of line 81 holds at most `top_n` indices. -/
theorem rankCandidates_length_le (v : List ℚ) (q topN : ℕ) :
    (rankCandidates v q topN).length ≤ topN :=
  le_trans (List.length_filter_le _ _)
    (by rw [List.length_take]; exact min_le_left _ _)

/-- C10: a recommendation list never holds more than `top_n` entries,
and it can hold strictly fewer even when more than `top_n` other
researchers exist: in `modelShortList` (4 researchers) the query "Q"
ranks third, its index lands inside the top-2 window and is filtered
out without replacement, leaving a single recommendation. -/
theorem recommend_at_most_topn :
    (∀ (m : Model) (name : String) (topN : ℕ) (l : List (ℕ × ℚ)),
        recommend_collaborators m name topN = Except.ok l →
          l.length ≤ topN) ∧
      (recommend_collaborators modelShortList "Q" 2).map List.length =
        Except.ok 1 ∧
      modelShortList.names.length = 4 := by
  refine ⟨?_, ?_, by decide⟩
  · intro m name topN l h
    cases heq : researcher_ids m.names name.data with
    | none =>
      rw [recommend_collaborators, heq] at h
      exact absurd h (by simp)
    | some idx =>
      simp only [recommend_collaborators, heq, Except.ok.injEq] at h
      subst h
      rw [List.length_map]
      exact rankCandidates_length_le _ _ _
  · have h1 : researcher_ids modelShortList.names "Q".data = some 0 := by
      decide
    have hrow : collabRow modelShortList 0 = [0, 2, 1, 0] := by
      have c0 : modelShortList.coauthor 0 0 = 0 := by decide
      have c1 : modelShortList.coauthor 0 1 = 2 := by decide
      have c2 : modelShortList.coauthor 0 2 = 1 := by decide
      have c3 : modelShortList.coauthor 0 3 = 0 := by decide
      have hn : modelShortList.names.length = 4 := by decide
      rw [collabRow, hn]
      norm_num [List.range_succ, c0, c1, c2, c3]
    have hcont : modelShortList.contentSim.getD 0 [] = [1, 1, 1, 0] := by
      decide
    have hcs : combinedScores modelShortList 0 =
        [600000 / 1000001, 600000 / 1000001 + 800000 / 2000001,
          600000 / 1000001 + 400000 / 2000001, 0] := by
      rw [combinedScores, hrow, hcont]
      norm_num [minMaxNormalize, listMin, listMax]
    have hrank : rankCandidates (combinedScores modelShortList 0) 0 2 =
        [2] := by
      rw [hcs]
      norm_num [rankCandidates, argsortAsc, List.insertionSort,
        List.orderedInsert, List.range_succ]
    rw [recommend_collaborators, h1]
    show (Except.ok ((rankCandidates (combinedScores modelShortList 0) 0 2).map
        (fun i => (i, (combinedScores modelShortList 0).getD i 0)))).map
        List.length = Except.ok 1
    rw [hrank]
    rfl

/-!
Correctness of the ranking (claim C1).  `np.argsort` ascending is a
permutation of the index range, sorted by score.  When the query index
holds the strict maximum combined score (the situation the slice of
line 81 was written for) and scores are pairwise distinct (numpy's
quicksort specifies no tie order), the ranking is exactly the `top_n`
highest-scoring candidates other than the query, in descending order:
the right length, strictly descending, never the query, and dominating
every candidate left out.
-/

/-- The ascending argsort is a permutation of the index range. -/

theorem argsort_perm (v : List ℚ) :
    (argsortAsc v).Perm (List.range v.length) :=
  List.perm_insertionSort _ _

/-- The ascending argsort is sorted by score. -/
theorem argsort_sorted (v : List ℚ) :
    List.Sorted (fun i j => v.getD i 0 ≤ v.getD j 0) (argsortAsc v) := by
  haveI : IsTotal ℕ (fun i j => v.getD i 0 ≤ v.getD j 0) :=
    ⟨fun a b => le_total _ _⟩
  haveI : IsTrans ℕ (fun i j => v.getD i 0 ≤ v.getD j 0) :=
    ⟨fun a b c hab hbc => le_trans hab hbc⟩
  exact List.sorted_insertionSort _ _

/-- C1 (amended): when the combined scores are pairwise distinct and
the query index attains the maximum, `rankCandidates` returns exactly
the `top_n` candidates with the highest combined scores among all
indices other than the query, sorted by combined score in descending
order: it has length `min top_n (n-1)`, is strictly descending, never
contains the query, and every returned index strictly outscores every
non-returned non-query index.  (Without the maximality hypothesis the
slice of line 81 drops the top-scoring CANDIDATE instead of the query —
see the counterexample.) -/
theorem rank_top_of_query_max (v : List ℚ) (q topN : ℕ)
    (hq : q < v.length)
    (hdist0 : ∀ i ∈ List.range v.length, ∀ j ∈ List.range v.length,
      i ≠ j → v.getD i 0 ≠ v.getD j 0)
    (hmax0 : ∀ i ∈ List.range v.length, i ≠ q →
      v.getD i 0 < v.getD q 0) :
    (rankCandidates v q topN).length = min topN (v.length - 1) ∧
      List.Chain' (fun i j => v.getD j 0 < v.getD i 0)
        (rankCandidates v q topN) ∧
      (∀ i ∈ rankCandidates v q topN, i < v.length ∧ i ≠ q) ∧
      (∀ i ∈ rankCandidates v q topN, ∀ j, j < v.length → j ≠ q →
        j ∉ rankCandidates v q topN → v.getD j 0 < v.getD i 0) := by
  have hdist : ∀ i j, i < v.length → j < v.length → i ≠ j →
      v.getD i 0 ≠ v.getD j 0 :=
    fun i j hi hj => hdist0 i (List.mem_range.mpr hi) j (List.mem_range.mpr hj)
  have hmax : ∀ i, i < v.length → i ≠ q → v.getD i 0 < v.getD q 0 :=
    fun i hi => hmax0 i (List.mem_range.mpr hi)
  have hperm := argsort_perm v
  have hsorted := argsort_sorted v
  have hlen : (argsortAsc v).length = v.length :=
    hperm.length_eq.trans (List.length_range _)
  have hmem : ∀ {i : ℕ}, i ∈ argsortAsc v ↔ i < v.length := by
    intro i
    rw [hperm.mem_iff, List.mem_range]
  have hnodup : (argsortAsc v).Nodup :=
    hperm.symm.nodup (List.nodup_range _)
  have hne : argsortAsc v ≠ [] := by
    intro h
    rw [h] at hlen
    simp at hlen
    omega
  -- the last element of the ascending argsort is the query index
  have hlast : (argsortAsc v).getLast hne = q := by
    set m := (argsortAsc v).getLast hne with hm
    have hmA : m ∈ argsortAsc v := List.getLast_mem hne
    have hdecomp := List.dropLast_append_getLast hne
    by_contra hne2
    have hmlt : m < v.length := hmem.mp hmA
    have hlt : v.getD m 0 < v.getD q 0 := hmax m hmlt hne2
    have hqA : q ∈ argsortAsc v := hmem.mpr hq
    rw [← hdecomp] at hqA
    rcases List.mem_append.mp hqA with hql | hqr
    · -- q in dropLast: sorted gives v q ≤ v m
      have hpairs := hsorted
      rw [← hdecomp] at hpairs
      have := (List.pairwise_append.mp hpairs).2.2 q hql m (by simp [hm])
      exact absurd this (not_le.mpr hlt)
    · simp at hqr
      exact hne2 hqr.symm
  -- the take (n-1) window is exactly dropLast
  have htake : (argsortAsc v).take (v.length - 1) = (argsortAsc v).dropLast := by
    rw [List.dropLast_eq_take, hlen]
  set B := (argsortAsc v).dropLast with hB
  have hBdecomp : B ++ [q] = argsortAsc v := by
    rw [hB, ← hlast]
    exact List.dropLast_append_getLast hne
  have hBnodup : B.Nodup ∧ q ∉ B := by
    have := hnodup
    rw [← hBdecomp] at this
    obtain ⟨h1, h2, h3⟩ := List.nodup_append.mp this
    exact ⟨h1, fun hqB => h3 hqB (by simp)⟩
  have hBsorted : List.Pairwise (fun i j => v.getD i 0 ≤ v.getD j 0) B := by
    have := hsorted
    rw [← hBdecomp] at this
    exact (List.pairwise_append.mp this).1
  have hBmem : ∀ {x : ℕ}, x ∈ B ↔ x < v.length ∧ x ≠ q := by
    intro x
    constructor
    · intro hx
      have hxA : x ∈ argsortAsc v := by
        rw [← hBdecomp]
        exact List.mem_append_left _ hx
      refine ⟨hmem.mp hxA, fun hxq => ?_⟩
      subst hxq
      exact hBnodup.2 hx
    · rintro ⟨hxlt, hxq⟩
      have hxA : x ∈ argsortAsc v := hmem.mpr hxlt
      rw [← hBdecomp] at hxA
      rcases List.mem_append.mp hxA with h | h
      · exact h
      · simp at h
        exact absurd h hxq
  have hBlen : B.length = v.length - 1 := by
    rw [hB, List.length_dropLast, hlen]
  -- D is the descending order of the non-query candidates
  set D := B.reverse with hD
  have hDsorted : List.Pairwise (fun i j => v.getD j 0 ≤ v.getD i 0) D := by
    rw [hD, List.pairwise_reverse]
    exact hBsorted
  have hDnodup : D.Nodup := by
    rw [hD, List.nodup_reverse]
    exact hBnodup.1
  have hDmem : ∀ {x : ℕ}, x ∈ D ↔ x < v.length ∧ x ≠ q := by
    intro x
    rw [hD, List.mem_reverse]
    exact hBmem
  have hDlen : D.length = v.length - 1 := by
    rw [hD, List.length_reverse]
    exact hBlen
  -- the filter of line 85 keeps everything in the window
  have hfilter : rankCandidates v q topN = D.take topN := by
    rw [rankCandidates, htake, ← hD]
    apply List.filter_eq_self.mpr
    intro a ha
    have haD : a ∈ D := List.mem_of_mem_take ha
    have := (hDmem.mp haD).2
    simpa using this
  have hRmem : ∀ {x : ℕ}, x ∈ rankCandidates v q topN →
      x < v.length ∧ x ≠ q := by
    intro x hx
    rw [hfilter] at hx
    exact hDmem.mp (List.mem_of_mem_take hx)
  refine ⟨?_, ?_, ?_, ?_⟩
  · rw [hfilter, List.length_take, hDlen]
  · -- strict descending chain
    rw [hfilter]
    have htsub : (D.take topN).Sublist D := List.take_sublist _ _
    have hp1 : List.Pairwise (fun i j => v.getD j 0 ≤ v.getD i 0)
        (D.take topN) := List.Pairwise.sublist htsub hDsorted
    have hp2 : List.Pairwise (fun i j : ℕ => i ≠ j) (D.take topN) :=
      List.Nodup.sublist htsub hDnodup
    have hp3 : List.Pairwise
        (fun i j => v.getD j 0 ≤ v.getD i 0 ∧ i ≠ j) (D.take topN) :=
      hp1.and hp2
    apply List.Pairwise.chain'
    apply List.Pairwise.imp_of_mem ?_ hp3
    intro a b ha hb hab
    have haD := hDmem.mp (List.mem_of_mem_take ha)
    have hbD := hDmem.mp (List.mem_of_mem_take hb)
    exact lt_of_le_of_ne hab.1
      (hdist b a hbD.1 haD.1 (fun h => hab.2 h.symm))
  · intro i hi
    exact hRmem hi
  · intro i hi j hjlt hjq hjnot
    have hiR := hi
    rw [hfilter] at hi hjnot
    have hjD : j ∈ D := hDmem.mpr ⟨hjlt, hjq⟩
    have hjdrop : j ∈ D.drop topN := by
      have := (List.take_append_drop topN D) ▸ hjD
      rcases List.mem_append.mp this with h | h
      · exact absurd h hjnot
      · exact h
    have hsplit : List.Pairwise (fun i j => v.getD j 0 ≤ v.getD i 0)
        (D.take topN ++ D.drop topN) := by
      rw [List.take_append_drop]
      exact hDsorted
    have hle := (List.pairwise_append.mp hsplit).2.2 i hi j hjdrop
    have hiD := hDmem.mp (List.mem_of_mem_take hi)
    have hij : i ≠ j := by
      intro h
      subst h
      exact hjnot hi
    exact lt_of_le_of_ne hle (hdist j i hjlt hiD.1 (fun h => hij h.symm))


/-- Witness for the amended C1 at the concrete score vector `[3, 1, 2]`
with query index 0 and `top_n = 1`. -/
theorem rank_top_of_query_max_w :
    (rankCandidates [(3 : ℚ), 1, 2] 0 1).length =
      min 1 ([(3 : ℚ), 1, 2].length - 1) :=
  (rank_top_of_query_max [3, 1, 2] 0 1 (by decide) (by decide) (by decide)).1


/-- Witness for C2: running `modelTwo` for query "Q" returns the single
pair `(1, 0)`, whose index differs from the query index 0. -/
theorem recommend_excludes_query_w : ((1 : ℕ), (0 : ℚ)).1 ≠ 0 := by
  have h1 : researcher_ids modelTwo.names "Q".data = some 0 := by decide
  have hrow : collabRow modelTwo 0 = [0, 0] := by
    have c0 : modelTwo.coauthor 0 0 = 0 := by decide
    have c1 : modelTwo.coauthor 0 1 = 0 := by decide
    have hn : modelTwo.names.length = 2 := by decide
    rw [collabRow, hn]
    norm_num [List.range_succ, c0, c1]
  have hcont : modelTwo.contentSim.getD 0 [] = [1, 0] := by decide
  have hcs : combinedScores modelTwo 0 = [600000 / 1000001, 0] := by
    rw [combinedScores, hrow, hcont]
    norm_num [minMaxNormalize, listMin, listMax]
  have hrank : rankCandidates [(600000 : ℚ) / 1000001, 0] 0 5 = [1] := by
    norm_num [rankCandidates, argsortAsc, List.insertionSort,
      List.orderedInsert, List.range_succ]
  have hok : recommend_collaborators modelTwo "Q" 5 =
      Except.ok [((1 : ℕ), (0 : ℚ))] := by
    rw [recommend_collaborators, h1]
    show Except.ok ((rankCandidates (combinedScores modelTwo 0) 0 5).map
      (fun i => (i, (combinedScores modelTwo 0).getD i 0))) =
        Except.ok [((1 : ℕ), (0 : ℚ))]
    rw [hcs, hrank]
    rfl
  exact recommend_excludes_query modelTwo "Q" 5 [((1 : ℕ), (0 : ℚ))] 0 hok h1
    ((1 : ℕ), (0 : ℚ)) (by simp)
